import Mathlib

/-!
# Verification of the reminder subsystem of `Slab2.1/assistant.py`

Shallow embedding of the reminder scheduling subsystem:

* `parse_time_local` — the clock-time resolver with the "roll to the next
  day" rule (source lines 400–416);
* `ReminderManager` — SQLite-backed store plus APScheduler timer engine
  (source lines 228–294), modelled as a pure state machine `MState`.

Instants are modelled as integers counting seconds.  A Python `datetime`
is modelled by `PyDatetime`: its wall-clock reading together with an
optional UTC offset (`none` models a naive datetime without `tzinfo`).
The SQLite table stores ISO-8601 UTC instants as text; at whole-second
resolution this serialisation is faithfully modelled by the integer UTC
second count (`Row.when_utc`).  `ORDER BY when_utc ASC` on those ISO
strings coincides with ascending order of the instants.  The APScheduler
job set keyed by `reminder_<id>` is modelled by a list of `Job`s;
`add_job` with `replace_existing=True` replaces any job with the same
key, and `remove_job` on a missing key raises (modelled by `Except`).
-/

/-- Model of a Python `datetime`: the wall-clock reading in seconds and an
optional UTC offset in seconds (`none` = naive, no `tzinfo`). -/
structure PyDatetime where
  wall : Int
  tzo : Option Int
deriving Repr, DecidableEq

/-- `d.astimezone(tz.UTC)`: rebase an aware datetime to UTC.  Python would
treat a naive input as local time; in `add_reminder` the input is always
made aware first, and we thread the local offset `tzoff` for the naive
case exactly as Python's runtime would. -/
def astimezoneUTC (tzoff : Int) (d : PyDatetime) : PyDatetime :=
  match d.tzo with
  | some o => ⟨d.wall - o, some 0⟩
  | none => ⟨d.wall - tzoff, some 0⟩

/-- The `Reminder` dataclass (source lines 221–226). -/
structure Reminder where
  id : Nat
  text : String
  when_utc : PyDatetime
  created_utc : PyDatetime
deriving Repr, DecidableEq

/-- One persisted row of the `reminders` table: `id INTEGER PRIMARY KEY
AUTOINCREMENT`, `text`, and the two ISO-8601 UTC instants stored as text,
modelled at second resolution by their UTC second counts. -/
structure Row where
  id : Nat
  text : String
  when_utc : Int
  created_utc : Int
deriving Repr, DecidableEq

/-- An armed APScheduler job: key `reminder_<id>`, the `DateTrigger` run
date (a UTC instant), and the payload passed to `_alert`. -/
structure Job where
  id : Nat
  runDate : Int
  text : String
deriving Repr, DecidableEq

/-- The observable state of a `ReminderManager`: the committed rows of the
SQLite table, the AUTOINCREMENT counter, the armed job set of the
scheduler, and the log of messages spoken through the TTS notifier. -/
structure MState where
  rows : List Row
  nextId : Nat
  jobs : List Job
  notified : List String
deriving Repr, DecidableEq

/-- Reading a row back: `datetime.fromisoformat(s).replace(tzinfo=tz.UTC)`
yields an aware UTC datetime whose wall clock is the stored instant. -/
def rowToReminder (r : Row) : Reminder :=
  ⟨r.id, r.text, ⟨r.when_utc, some 0⟩, ⟨r.created_utc, some 0⟩⟩

/-- Comparison used by `ORDER BY when_utc ASC`. -/
def rowLe (a b : Row) : Prop := a.when_utc ≤ b.when_utc

instance : DecidableRel rowLe := fun a b => Int.decLe a.when_utc b.when_utc

instance : IsTotal Row rowLe := ⟨fun a b => Int.le_total a.when_utc b.when_utc⟩

instance : IsTrans Row rowLe := ⟨fun _ _ _ => Int.le_trans⟩

/-- `_schedule_job` (source lines 260–262): `add_job` with
`id=f"reminder_<id>"` and `replace_existing=True` replaces any job with
the same key, then registers the new one. -/
def schedule_job (s : MState) (r : Reminder) : MState :=
  { s with jobs := s.jobs.filter (fun j => j.id ≠ r.id) ++ [⟨r.id, r.when_utc.wall, r.text⟩] }

/-- The committed effect of `INSERT INTO reminders ...` followed by
`commit`: appends the row and advances the AUTOINCREMENT counter. -/
def insertRow (s : MState) (row : Row) : MState :=
  { s with rows := s.rows ++ [row], nextId := s.nextId + 1 }

/-- `add_reminder` (source lines 264–278): make a naive `when_local`
aware in the user's timezone, convert to UTC, insert and commit the row
with the store-assigned id (`cur.lastrowid`), then schedule the job. -/
def add_reminder (tzoff : Int) (now_utc : Int) (s : MState) (text : String)
    (when_local : PyDatetime) : MState × Reminder :=
  let wl : PyDatetime :=
    match when_local.tzo with
    | none => ⟨when_local.wall, some tzoff⟩
    | some _ => when_local
  let when_utc := astimezoneUTC tzoff wl
  let created_utc : PyDatetime := ⟨now_utc, some 0⟩
  let rid := s.nextId
  let r : Reminder := ⟨rid, text, when_utc, created_utc⟩
  let s1 := insertRow s ⟨rid, text, when_utc.wall, now_utc⟩
  (schedule_job s1 r, r)

/-- `add_reminder` with a fallible INSERT: when `insertOk` is `false`
the `conn.execute` raises a storage error, the exception propagates out
of `add_reminder` before `_schedule_job` is reached, and the state is
left as it was; `none` models the propagated error. -/
def add_reminder_fallible (tzoff : Int) (now_utc : Int) (s : MState) (text : String)
    (when_local : PyDatetime) (insertOk : Bool) : MState × Option Reminder :=
  if insertOk then
    let (s2, r) := add_reminder tzoff now_utc s text when_local
    (s2, some r)
  else
    (s, none)

/-- `list_reminders` (source lines 280–285): `SELECT ... ORDER BY when_utc
ASC`, each row materialised as a UTC-aware `Reminder`. -/
def list_reminders (s : MState) : List Reminder :=
  (List.insertionSort rowLe s.rows).map rowToReminder

/-- `scheduler.remove_job(f"reminder_<id>")`: removes the job with that
key, raising `JobLookupError` (modelled by `Except.error`) if absent. -/
def remove_job (jobs : List Job) (rid : Nat) : Except Unit (List Job) :=
  if jobs.any (fun j => j.id == rid) then
    Except.ok (jobs.filter (fun j => j.id ≠ rid))
  else
    Except.error ()

/-- `delete_reminder` (source lines 287–294): `DELETE ... WHERE id = ?`,
commit, then `remove_job` inside `try/except: pass`; returns
`cur.rowcount > 0`. -/
def delete_reminder (s : MState) (rid : Nat) : MState × Bool :=
  let existed := s.rows.any (fun r => r.id == rid)
  let rows2 := s.rows.filter (fun r => r.id ≠ rid)
  let jobs2 :=
    match remove_job s.jobs rid with
    | Except.ok js => js
    | Except.error _ => s.jobs
  ({ s with rows := rows2, jobs := jobs2 }, existed)

/-- `_alert` (source lines 256–258): speak `Reminder: <text>` through the
TTS notifier and nothing else — the store is not touched. -/
def alert (s : MState) (text : String) : MState :=
  { s with notified := s.notified ++ ["Reminder: " ++ text] }

/-- The timer engine firing the job keyed by `rid`: APScheduler removes a
`DateTrigger` job from the job set as it runs it, and the job's callback
`_alert` is invoked with the stored payload.  A key with no armed job
never fires. -/
def fire (s : MState) (rid : Nat) : MState :=
  match s.jobs.find? (fun j => j.id == rid) with
  | some j => alert { s with jobs := s.jobs.filter (fun x => x.id ≠ rid) } j.text
  | none => s

/-- `_reschedule_existing` (source lines 247–254): read `now` once, then
schedule every persisted row whose instant is strictly in the future. -/
def reschedule_existing (now_utc : Int) (s : MState) : MState :=
  s.rows.foldl
    (fun acc r => if r.when_utc > now_utc then schedule_job acc (rowToReminder r) else acc)
    s

/-- `ReminderManager.__init__` (source lines 229–245) against an existing
database: the table already holds `rows` and the AUTOINCREMENT counter
stands at `nextId`; a fresh scheduler starts with no jobs, then
`_reschedule_existing` runs. -/
def mkManager (rows : List Row) (nextId : Nat) (now_utc : Int) : MState :=
  reschedule_existing now_utc ⟨rows, nextId, [], []⟩

/-- `ReminderManager.__init__` on a fresh database: no rows, and SQLite
AUTOINCREMENT assigns 1 to the first inserted row. -/
def freshManager : MState := ⟨[], 1, [], []⟩

/-- `parse_time_local` (source lines 400–416) on a clock-time expression,
working in local wall-clock seconds.  `dtparser.parse(text, default=now)`
keeps the date of `now` and replaces the time of day with the parsed one
(`tod` seconds past local midnight); if the result is at or before `now`
the code adds exactly one day. -/
def parse_time_local (now tod : Nat) : Nat :=
  let dt := now / 86400 * 86400 + tod
  if dt ≤ now then dt + 86400 else dt

/-- `parse_time_local` including the failure path: an expression
`dtparser` does not recognise makes the parse raise, the exception is
caught and `None` is returned — nothing is guessed. -/
def parse_time_local_opt (now : Nat) (parsed : Option Nat) : Option Nat :=
  parsed.map (parse_time_local now)

/-- The `REMIND_AT_RE` branch of `Assistant.handle` (source lines
503–513): resolve the time; on success add the reminder and confirm, on
failure apologise and create nothing.  `parsed` is the outcome of
`dtparser` on the time expression (`none` = unrecognised). -/
def handle_set_reminder (tzoff now_utc : Int) (now_local : Nat) (s : MState)
    (task : String) (parsed : Option Nat) : MState × String :=
  match parse_time_local_opt now_local parsed with
  | some w =>
    let (s2, _) := add_reminder tzoff now_utc s task ⟨(w : Int), some tzoff⟩
    (s2, "Reminder set to " ++ task ++ ".")
  | none => (s, "Sorry, I couldn\x27t understand the time.")

/-! ## Helper lemmas -/

theorem schedule_job_rows (s : MState) (r : Reminder) : (schedule_job s r).rows = s.rows := rfl

theorem mem_list_reminders (s : MState) (x : Reminder) :
    x ∈ list_reminders s ↔ ∃ r ∈ s.rows, x = rowToReminder r := by
  unfold list_reminders
  rw [List.mem_map]
  constructor
  · rintro ⟨r, hr, rfl⟩
    exact ⟨r, (List.perm_insertionSort rowLe s.rows).mem_iff.1 hr, rfl⟩
  · rintro ⟨r, hr, rfl⟩
    exact ⟨r, (List.perm_insertionSort rowLe s.rows).mem_iff.2 hr, rfl⟩

/-! ## C1: clock-time rollover in `parse_time_local` -/

/-- C1: for every clock-time expression (time of day `tod`, with the date
taken from `now`), the resolved instant is strictly in the future; it is
the same-day instant when that is still ahead, and exactly 24 hours
(86400 s) later when the same-day instant is at or before `now`; it never
exceeds one rollover. -/
theorem parse_time_local_rollover (now tod : Nat) (h : tod < 86400) :
    now < parse_time_local now tod
    ∧ parse_time_local now tod ≤ now / 86400 * 86400 + tod + 86400
    ∧ (now / 86400 * 86400 + tod ≤ now →
        parse_time_local now tod = now / 86400 * 86400 + tod + 86400)
    ∧ (now < now / 86400 * 86400 + tod →
        parse_time_local now tod = now / 86400 * 86400 + tod) := by
  have hmod : 86400 * (now / 86400) + now % 86400 = now := Nat.div_add_mod now 86400
  have hlt : now % 86400 < 86400 := Nat.mod_lt _ (by norm_num)
  refine ⟨?_, ?_, ?_, ?_⟩ <;>
    · simp only [parse_time_local]
      split <;> omega

/-- C1 witness: with `now` = 22:00 local, "23:00" resolves to today 23:00
(strictly in the future) and "21:00" resolves to tomorrow 21:00. -/
theorem parse_time_local_rollover_witness :
    (23 * 3600 < 86400 ∧ 22 * 3600 < parse_time_local (22 * 3600) (23 * 3600))
    ∧ parse_time_local (22 * 3600) (23 * 3600) = 23 * 3600
    ∧ parse_time_local (22 * 3600) (21 * 3600) = 86400 + 21 * 3600 :=
  ⟨⟨by norm_num, (parse_time_local_rollover (22 * 3600) (23 * 3600) (by norm_num)).1⟩,
    by decide, by decide⟩

/-! ## C5: listing order -/

/-- C5: for every store state, `list_reminders` returns the persisted rows
(as a permutation, so nothing is added or dropped) sorted ascending by
`when_utc`, and returns the empty sequence when no rows exist. -/
theorem list_reminders_sorted_spec (s : MState) :
    List.Sorted (fun a b : Reminder => a.when_utc.wall ≤ b.when_utc.wall) (list_reminders s)
    ∧ List.Perm (list_reminders s) (s.rows.map rowToReminder)
    ∧ (s.rows = [] → list_reminders s = []) := by
  refine ⟨?_, ?_, ?_⟩
  · unfold list_reminders
    exact List.pairwise_map.mpr (List.sorted_insertionSort rowLe s.rows)
  · exact (List.perm_insertionSort rowLe s.rows).map rowToReminder
  · intro h
    simp [list_reminders, h]

/-- C5 witness: a store holding two rows out of time order lists them
sorted ascending by `when_utc`. -/
theorem list_reminders_sorted_spec_witness :
    list_reminders ⟨[⟨1, "b", 50, 0⟩, ⟨2, "a", 10, 0⟩], 3, [], []⟩
      = [rowToReminder ⟨2, "a", 10, 0⟩, rowToReminder ⟨1, "b", 50, 0⟩]
    ∧ ((⟨[⟨1, "b", 50, 0⟩, ⟨2, "a", 10, 0⟩], 3, [], []⟩ : MState).rows = [] →
        list_reminders ⟨[⟨1, "b", 50, 0⟩, ⟨2, "a", 10, 0⟩], 3, [], []⟩ = []) :=
  ⟨by decide, (list_reminders_sorted_spec ⟨[⟨1, "b", 50, 0⟩, ⟨2, "a", 10, 0⟩], 3, [], []⟩).2.2⟩

/-! ## C4: deletion semantics -/

/-- C4: `delete_reminder` returns true exactly when a row with the id
existed; on a nonexistent id it returns false and leaves the rows (hence
`list_reminders`) unchanged; after a delete no job for the id remains
armed, and the returned value does not depend on the scheduler's job set
(a failed `remove_job` is swallowed). -/
theorem delete_reminder_spec (s : MState) (rid : Nat) :
    ((delete_reminder s rid).2 = true ↔ ∃ r ∈ s.rows, r.id = rid)
    ∧ ((delete_reminder s rid).2 = false →
        (delete_reminder s rid).1.rows = s.rows
        ∧ list_reminders (delete_reminder s rid).1 = list_reminders s)
    ∧ (∀ j ∈ (delete_reminder s rid).1.jobs, j.id ≠ rid)
    ∧ (∀ jobs1 jobs2 : List Job,
        (delete_reminder { s with jobs := jobs1 } rid).2
          = (delete_reminder { s with jobs := jobs2 } rid).2) := by
  refine ⟨?_, ?_, ?_, ?_⟩
  · simp [delete_reminder, List.any_eq_true]
  · intro hfalse
    have hnone : ∀ r ∈ s.rows, r.id ≠ rid := by
      simpa [delete_reminder, List.any_eq_false] using hfalse
    have hrows : (delete_reminder s rid).1.rows = s.rows := by
      simp only [delete_reminder]
      exact List.filter_eq_self.mpr (fun r hr => by simpa using hnone r hr)
    refine ⟨hrows, ?_⟩
    simp only [list_reminders]
    rw [hrows]
  · intro j hj
    by_cases hjob : s.jobs.any (fun j => j.id == rid) = true
    · simp only [delete_reminder, remove_job, if_pos hjob] at hj
      have := List.of_mem_filter hj
      simpa using this
    · simp only [delete_reminder, remove_job, if_neg hjob] at hj
      intro hcontra
      apply hjob
      rw [List.any_eq_true]
      exact ⟨j, hj, by simp [hcontra]⟩
  · intro jobs1 jobs2
    rfl

/-- C4 witness: deleting id 2 from a store holding only id 1 returns
false and leaves the listing unchanged. -/
theorem delete_reminder_spec_witness :
    (delete_reminder ⟨[⟨1, "a", 10, 0⟩], 2, [], []⟩ 2).2 = false
    ∧ list_reminders (delete_reminder ⟨[⟨1, "a", 10, 0⟩], 2, [], []⟩ 2).1
        = list_reminders ⟨[⟨1, "a", 10, 0⟩], 2, [], []⟩ :=
  ⟨by decide,
    ((delete_reminder_spec ⟨[⟨1, "a", 10, 0⟩], 2, [], []⟩ 2).2.1 (by decide)).2⟩

/-! ## C7: parse failure creates nothing -/

/-- C7: when the time expression is unrecognised (`dtparser` fails, so
the resolver yields the failure value rather than guessing), the handler
surfaces the failure message to the caller and neither creates a row nor
arms a job — the state is returned untouched. -/
theorem handle_parse_failure_no_create (tzoff now_utc : Int) (now_local : Nat)
    (s : MState) (task : String) :
    parse_time_local_opt now_local none = none
    ∧ (handle_set_reminder tzoff now_utc now_local s task none).1 = s
    ∧ (handle_set_reminder tzoff now_utc now_local s task none).1.rows = s.rows
    ∧ (handle_set_reminder tzoff now_utc now_local s task none).1.jobs = s.jobs
    ∧ (handle_set_reminder tzoff now_utc now_local s task none).2
        = "Sorry, I couldn\x27t understand the time." :=
  ⟨rfl, rfl, rfl, rfl, rfl⟩

/-! ## C8: firing is frame-preserving on the store -/

/-- C8: firing a reminder leaves the rows untouched — the fired row is
neither deleted nor modified, `list_reminders` is unchanged and every
previously listed reminder is still listed — and when a job for the id
is armed, firing invokes only the notifier, with the job's text. -/
theorem fire_frame_spec (s : MState) (rid : Nat) :
    (fire s rid).rows = s.rows
    ∧ list_reminders (fire s rid) = list_reminders s
    ∧ (∀ r ∈ s.rows, rowToReminder r ∈ list_reminders (fire s rid))
    ∧ (∀ j, s.jobs.find? (fun x => x.id == rid) = some j →
        (fire s rid).notified = s.notified ++ ["Reminder: " ++ j.text]) := by
  have hrows : (fire s rid).rows = s.rows := by
    unfold fire alert
    cases s.jobs.find? (fun j => j.id == rid) <;> rfl
  have hlist : list_reminders (fire s rid) = list_reminders s := by
    simp only [list_reminders]
    rw [hrows]
  refine ⟨hrows, hlist, ?_, ?_⟩
  · intro r hr
    rw [hlist, mem_list_reminders]
    exact ⟨r, hr, rfl⟩
  · intro j hj
    unfold fire alert
    rw [hj]

/-- C8 witness: firing the armed job for id 1 notifies with its text and
leaves the single row listed. -/
theorem fire_frame_spec_witness :
    (fire ⟨[⟨1, "a", 10, 0⟩], 2, [⟨1, 10, "a"⟩], []⟩ 1).notified = [] ++ ["Reminder: " ++ "a"]
    ∧ (fire ⟨[⟨1, "a", 10, 0⟩], 2, [⟨1, 10, "a"⟩], []⟩ 1).rows = [⟨1, "a", 10, 0⟩] :=
  ⟨(fire_frame_spec ⟨[⟨1, "a", 10, 0⟩], 2, [⟨1, 10, "a"⟩], []⟩ 1).2.2.2 ⟨1, 10, "a"⟩ (by decide),
    (fire_frame_spec ⟨[⟨1, "a", 10, 0⟩], 2, [⟨1, 10, "a"⟩], []⟩ 1).1⟩

/-! ## C10: timezone normalisation -/

/-- C10: `add_reminder` interprets a naive `when_local` as being in the
process's local timezone (offset `tzoff`) before converting, and the
returned `Reminder` as well as every `Reminder` produced by
`list_reminders` carries timezone-aware UTC instants (offset `some 0`)
in `when_utc` and `created_utc`. -/
theorem reminders_tz_normalized (tzoff now_utc : Int) (s : MState) (text : String)
    (wl : PyDatetime) :
    (add_reminder tzoff now_utc s text wl).2.when_utc.tzo = some 0
    ∧ (add_reminder tzoff now_utc s text wl).2.created_utc.tzo = some 0
    ∧ (wl.tzo = none →
        (add_reminder tzoff now_utc s text wl).2.when_utc.wall = wl.wall - tzoff)
    ∧ (∀ x ∈ list_reminders (add_reminder tzoff now_utc s text wl).1,
        x.when_utc.tzo = some 0 ∧ x.created_utc.tzo = some 0) := by
  refine ⟨?_, rfl, ?_, ?_⟩
  · simp only [add_reminder, astimezoneUTC]
    cases h : wl.tzo <;> simp [h]
  · intro hnaive
    simp only [add_reminder, astimezoneUTC, hnaive]
  · intro x hx
    rcases (mem_list_reminders _ x).1 hx with ⟨r, _, rfl⟩
    exact ⟨rfl, rfl⟩

/-- C10 witness: a naive local 1000 s with local offset 19800 s (UTC+5:30)
is stored as the UTC instant 1000 − 19800, timezone-aware. -/
theorem reminders_tz_normalized_witness :
    (add_reminder 19800 0 freshManager "t" ⟨1000, none⟩).2.when_utc.wall = 1000 - 19800
    ∧ (add_reminder 19800 0 freshManager "t" ⟨1000, none⟩).2.when_utc.tzo = some 0 :=
  ⟨(reminders_tz_normalized 19800 0 freshManager "t" ⟨1000, none⟩).2.2.1 rfl,
    (reminders_tz_normalized 19800 0 freshManager "t" ⟨1000, none⟩).1⟩

/-! ## C3: write-ahead discipline in `add_reminder` -/

/-- C3: the row is durably inserted strictly before any job is armed — at
the moment of insertion the job set is still the old one — and if the
INSERT raises, the error propagates with no row inserted and no job
armed; on success the armed job's id matches a persisted row. -/
theorem add_persist_before_arm (tzoff now_utc : Int) (s : MState) (text : String)
    (wl : PyDatetime) (insertOk : Bool) :
    (insertOk = false →
      add_reminder_fallible tzoff now_utc s text wl insertOk = (s, none))
    ∧ (∀ row : Row, (insertRow s row).jobs = s.jobs ∧ row ∈ (insertRow s row).rows)
    ∧ (insertOk = true →
      ∃ r : Reminder,
        add_reminder_fallible tzoff now_utc s text wl insertOk
          = ((add_reminder tzoff now_utc s text wl).1, some r)
        ∧ (∃ j ∈ (add_reminder tzoff now_utc s text wl).1.jobs, j.id = r.id)
        ∧ (∃ row ∈ (add_reminder tzoff now_utc s text wl).1.rows,
            row.id = r.id ∧ row.text = text)) := by
  refine ⟨?_, ?_, ?_⟩
  · intro h
    simp [add_reminder_fallible, h]
  · intro row
    exact ⟨rfl, by simp [insertRow]⟩
  · intro h
    refine ⟨(add_reminder tzoff now_utc s text wl).2, by simp [add_reminder_fallible, h], ?_, ?_⟩
    · exact ⟨⟨s.nextId, (astimezoneUTC tzoff (match wl.tzo with
        | none => ⟨wl.wall, some tzoff⟩
        | some _ => wl)).wall, text⟩, by simp [add_reminder, schedule_job, insertRow], rfl⟩
    · exact ⟨⟨s.nextId, text, (astimezoneUTC tzoff (match wl.tzo with
        | none => ⟨wl.wall, some tzoff⟩
        | some _ => wl)).wall, now_utc⟩,
        by simp [add_reminder, schedule_job, insertRow], rfl, rfl⟩

/-- C3 witness: a failed INSERT leaves the fresh manager untouched and
returns the error; the jobs set stays empty. -/
theorem add_persist_before_arm_witness :
    add_reminder_fallible 0 0 freshManager "x" ⟨5, none⟩ false = (freshManager, none)
    ∧ (insertRow freshManager ⟨1, "x", 5, 0⟩).jobs = freshManager.jobs :=
  ⟨(add_persist_before_arm 0 0 freshManager "x" ⟨5, none⟩ false).1 rfl,
    ((add_persist_before_arm 0 0 freshManager "x" ⟨5, none⟩ false).2.1 ⟨1, "x", 5, 0⟩).1⟩

/-! ## C2: startup recovery arms exactly the future rows -/

theorem schedule_job_jobs_mem (s : MState) (r : Reminder) (i : Nat) :
    (∃ j ∈ (schedule_job s r).jobs, j.id = i) ↔ i = r.id ∨ ∃ j ∈ s.jobs, j.id = i := by
  simp only [schedule_job, List.mem_append, List.mem_filter, List.mem_singleton]
  constructor
  · rintro ⟨j, hj | hj, hid⟩
    · exact Or.inr ⟨j, hj.1, hid⟩
    · subst hj
      exact Or.inl hid.symm
  · rintro (rfl | ⟨j, hj, hid⟩)
    · exact ⟨⟨r.id, r.when_utc.wall, r.text⟩, Or.inr rfl, rfl⟩
    · by_cases hcase : j.id = r.id
      · exact ⟨⟨r.id, r.when_utc.wall, r.text⟩, Or.inr rfl, by rw [← hcase, hid]⟩
      · exact ⟨j, Or.inl ⟨hj, by simpa using hcase⟩, hid⟩

theorem reschedule_foldl_rows (now_utc : Int) (l : List Row) (acc : MState) :
    (l.foldl
      (fun a r => if r.when_utc > now_utc then schedule_job a (rowToReminder r) else a)
      acc).rows = acc.rows := by
  induction l generalizing acc with
  | nil => rfl
  | cons r rest ih =>
    simp only [List.foldl_cons]
    rw [ih]
    by_cases h : r.when_utc > now_utc
    · rw [if_pos h]
      rfl
    · rw [if_neg h]

theorem reschedule_foldl_jobs_mem (now_utc : Int) (l : List Row) (acc : MState) (i : Nat) :
    (∃ j ∈ (l.foldl
        (fun a r => if r.when_utc > now_utc then schedule_job a (rowToReminder r) else a)
        acc).jobs, j.id = i)
      ↔ (∃ r ∈ l, r.id = i ∧ now_utc < r.when_utc) ∨ ∃ j ∈ acc.jobs, j.id = i := by
  induction l generalizing acc with
  | nil => simp
  | cons r rest ih =>
    simp only [List.foldl_cons]
    by_cases h : r.when_utc > now_utc
    · rw [if_pos h, ih, schedule_job_jobs_mem]
      simp only [List.mem_cons, rowToReminder]
      constructor
      · rintro (⟨r2, hr2, hid, hwhen⟩ | rfl | hacc)
        · exact Or.inl ⟨r2, Or.inr hr2, hid, hwhen⟩
        · exact Or.inl ⟨r, Or.inl rfl, rfl, h⟩
        · exact Or.inr hacc
      · rintro (⟨r2, rfl | hr2, hid, hwhen⟩ | hacc)
        · exact Or.inr (Or.inl hid.symm)
        · exact Or.inl ⟨r2, hr2, hid, hwhen⟩
        · exact Or.inr (Or.inr hacc)
    · rw [if_neg h, ih]
      simp only [List.mem_cons]
      constructor
      · rintro (⟨r2, hr2, hid, hwhen⟩ | hacc)
        · exact Or.inl ⟨r2, Or.inr hr2, hid, hwhen⟩
        · exact Or.inr hacc
      · rintro (⟨r2, rfl | hr2, hid, hwhen⟩ | hacc)
        · exact absurd hwhen h
        · exact Or.inl ⟨r2, hr2, hid, hwhen⟩
        · exact Or.inr hacc

theorem pairwise_id_inj {rows : List Row}
    (h : rows.Pairwise (fun a b => a.id ≠ b.id)) {a b : Row}
    (ha : a ∈ rows) (hb : b ∈ rows) (hid : a.id = b.id) : a = b := by
  induction rows with
  | nil => cases ha
  | cons x xs ih =>
    have hx := (List.pairwise_cons.1 h).1
    have hxs := (List.pairwise_cons.1 h).2
    rcases List.mem_cons.1 ha with rfl | ha2
    · rcases List.mem_cons.1 hb with rfl | hb2
      · rfl
      · exact absurd hid (hx b hb2)
    · rcases List.mem_cons.1 hb with rfl | hb2
      · exact absurd hid.symm (hx a ha2)
      · exact ih hxs ha2 hb2

/-- C2: constructing a manager over persisted rows arms a job for a row
exactly when its `when_utc` is strictly after the current instant; a row
at or before now is never armed, firing its id is a no-op (it never
notifies), yet it still appears in `list_reminders` and `delete_reminder`
on it succeeds. -/
theorem reschedule_arms_iff_future (rows : List Row) (nextId : Nat) (now_utc : Int)
    (hids : rows.Pairwise (fun a b => a.id ≠ b.id)) :
    (mkManager rows nextId now_utc).rows = rows
    ∧ (∀ r ∈ rows,
        (∃ j ∈ (mkManager rows nextId now_utc).jobs, j.id = r.id) ↔ now_utc < r.when_utc)
    ∧ (∀ r ∈ rows, r.when_utc ≤ now_utc →
        fire (mkManager rows nextId now_utc) r.id = mkManager rows nextId now_utc
        ∧ (fire (mkManager rows nextId now_utc) r.id).notified
            = (mkManager rows nextId now_utc).notified
        ∧ rowToReminder r ∈ list_reminders (mkManager rows nextId now_utc)
        ∧ (delete_reminder (mkManager rows nextId now_utc) r.id).2 = true) := by
  have hrows : (mkManager rows nextId now_utc).rows = rows :=
    reschedule_foldl_rows now_utc rows ⟨rows, nextId, [], []⟩
  have hmem : ∀ i : Nat,
      (∃ j ∈ (mkManager rows nextId now_utc).jobs, j.id = i)
        ↔ ∃ r ∈ rows, r.id = i ∧ now_utc < r.when_utc := by
    intro i
    have := reschedule_foldl_jobs_mem now_utc rows ⟨rows, nextId, [], []⟩ i
    simpa [mkManager, reschedule_existing] using this
  refine ⟨hrows, ?_, ?_⟩
  · intro r hr
    rw [hmem r.id]
    constructor
    · rintro ⟨r2, hr2, hid, hwhen⟩
      rwa [pairwise_id_inj hids hr hr2 hid.symm]
    · intro hwhen
      exact ⟨r, hr, rfl, hwhen⟩
  · intro r hr hpast
    have hnojob : ∀ j ∈ (mkManager rows nextId now_utc).jobs, ¬(j.id = r.id) := by
      intro j hj hcontra
      have : ∃ r2 ∈ rows, r2.id = r.id ∧ now_utc < r2.when_utc :=
        (hmem r.id).1 ⟨j, hj, hcontra⟩
      rcases this with ⟨r2, hr2, hid, hwhen⟩
      rw [pairwise_id_inj hids hr2 hr hid] at hwhen
      exact absurd hpast (not_le.mpr hwhen)
    have hfind : (mkManager rows nextId now_utc).jobs.find? (fun j => j.id == r.id) = none := by
      rw [List.find?_eq_none]
      intro j hj
      simpa using hnojob j hj
    have hfire : fire (mkManager rows nextId now_utc) r.id = mkManager rows nextId now_utc := by
      unfold fire
      rw [hfind]
    refine ⟨hfire, by rw [hfire], ?_, ?_⟩
    · rw [mem_list_reminders]
      exact ⟨r, by rw [hrows]; exact hr, rfl⟩
    · have : (mkManager rows nextId now_utc).rows.any (fun x => x.id == r.id) = true := by
        rw [List.any_eq_true]
        exact ⟨r, by rw [hrows]; exact hr, by simp⟩
      simpa [delete_reminder] using this

/-- C2 witness: with now = 10, the persisted past row (id 1, due 5) is
not armed and firing it changes nothing, while it stays listed and
deletable; the future row (id 2, due 100) is armed. -/
theorem reschedule_arms_iff_future_witness :
    ((∃ j ∈ (mkManager [⟨1, "past", 5, 0⟩, ⟨2, "future", 100, 0⟩] 3 10).jobs, j.id = 2)
      ↔ (10 : Int) < 100)
    ∧ fire (mkManager [⟨1, "past", 5, 0⟩, ⟨2, "future", 100, 0⟩] 3 10) 1
        = mkManager [⟨1, "past", 5, 0⟩, ⟨2, "future", 100, 0⟩] 3 10
    ∧ rowToReminder ⟨1, "past", 5, 0⟩
        ∈ list_reminders (mkManager [⟨1, "past", 5, 0⟩, ⟨2, "future", 100, 0⟩] 3 10)
    ∧ (delete_reminder (mkManager [⟨1, "past", 5, 0⟩, ⟨2, "future", 100, 0⟩] 3 10) 1).2
        = true := by
  have h := reschedule_arms_iff_future [⟨1, "past", 5, 0⟩, ⟨2, "future", 100, 0⟩] 3 10
    (by decide)
  have h2 := h.2.2 ⟨1, "past", 5, 0⟩ (by decide) (by decide)
  exact ⟨h.2.1 ⟨2, "future", 100, 0⟩ (by decide), h2.1, h2.2.2.1, h2.2.2.2⟩

/-! ## C6: add/list round trip -/

/-- The UTC instant `add_reminder` derives from a local datetime: an
aware input keeps its own offset, a naive one is interpreted at the
process-local offset `tzoff`. -/
def localToUTC (tzoff : Int) (d : PyDatetime) : Int := d.wall - d.tzo.getD tzoff

theorem add_reminder_when_wall (tzoff now_utc : Int) (s : MState) (t : String)
    (wl : PyDatetime) :
    (add_reminder tzoff now_utc s t wl).2.when_utc.wall = localToUTC tzoff wl := by
  cases h : wl.tzo <;> simp [add_reminder, astimezoneUTC, localToUTC, h]

theorem add_reminder_rows (tzoff now_utc : Int) (s : MState) (t : String)
    (wl : PyDatetime) :
    (add_reminder tzoff now_utc s t wl).1.rows
      = s.rows ++ [⟨s.nextId, t, localToUTC tzoff wl, now_utc⟩] := by
  cases h : wl.tzo <;> simp [add_reminder, schedule_job, insertRow, astimezoneUTC, localToUTC, h]

/-- C6: adding a reminder for a future local instant returns a Reminder
with positive id, and the subsequent listing contains exactly one entry
with that text, whose `when_utc` is the UTC conversion of the local
input, provided no prior row already used the text. -/
theorem add_list_round_trip (tzoff now_utc : Int) (s : MState) (t : String) (wl : PyDatetime)
    (hpos : 1 ≤ s.nextId)
    (hfresh : ∀ r ∈ s.rows, r.text ≠ t)
    (hfut : now_utc < localToUTC tzoff wl) :
    0 < (add_reminder tzoff now_utc s t wl).2.id
    ∧ ((list_reminders (add_reminder tzoff now_utc s t wl).1).filter
        (fun x => x.text == t)).length = 1
    ∧ ∀ x ∈ list_reminders (add_reminder tzoff now_utc s t wl).1,
        x.text = t → x.when_utc.wall = localToUTC tzoff wl := by
  refine ⟨hpos, ?_, ?_⟩
  · rw [← List.countP_eq_length_filter]
    have hperm : List.Perm (list_reminders (add_reminder tzoff now_utc s t wl).1)
        ((add_reminder tzoff now_utc s t wl).1.rows.map rowToReminder) :=
      (List.perm_insertionSort rowLe _).map rowToReminder
    rw [hperm.countP_eq, List.countP_map, add_reminder_rows, List.countP_append]
    have h0 : s.rows.countP ((fun x : Reminder => x.text == t) ∘ rowToReminder) = 0 := by
      rw [List.countP_eq_zero]
      intro r hr
      simpa [rowToReminder] using hfresh r hr
    rw [h0]
    simp [rowToReminder]
  · intro x hx hxt
    rcases (mem_list_reminders _ x).1 hx with ⟨r, hr, rfl⟩
    rw [add_reminder_rows] at hr
    rcases List.mem_append.1 hr with hr2 | hr2
    · exact absurd hxt (hfresh r hr2)
    · rw [List.mem_singleton] at hr2
      subst hr2
      rfl

/-- C6 witness: on a fresh manager, adding "water" at local instant 100
(naive, offset 0) yields id 1 > 0 and the listing holds exactly one
"water" entry at UTC instant 100. -/
theorem add_list_round_trip_witness :
    0 < (add_reminder 0 0 freshManager "water" ⟨100, none⟩).2.id
    ∧ ((list_reminders (add_reminder 0 0 freshManager "water" ⟨100, none⟩).1).filter
        (fun x => x.text == "water")).length = 1 := by
  have h := add_list_round_trip 0 0 freshManager "water" ⟨100, none⟩
    (by decide) (by intro r hr; cases hr) (by decide)
  exact ⟨h.1, h.2.1⟩

/-! ## C9: id assignment — uniqueness, monotonicity, no reuse -/

/-- An externally visible store operation: `add_reminder` or
`delete_reminder` (listing does not change state). -/
inductive Op where
  | addOp (text : String) (wl : PyDatetime)
  | delOp (rid : Nat)
deriving Repr, DecidableEq

/-- One operation against the manager state. -/
def step (tzoff now_utc : Int) (s : MState) : Op → MState
  | Op.addOp t wl => (add_reminder tzoff now_utc s t wl).1
  | Op.delOp rid => (delete_reminder s rid).1

/-- The ids the store assigns during one operation (one per `add`). -/
def assignedIds (tzoff now_utc : Int) (s : MState) : Op → List Nat
  | Op.addOp t wl => [(add_reminder tzoff now_utc s t wl).2.id]
  | Op.delOp _ => []

/-- Run a sequence of operations, collecting the assigned ids in order. -/
def runTrace (tzoff now_utc : Int) (s : MState) : List Op → MState × List Nat
  | [] => (s, [])
  | op :: ops =>
    let s2 := step tzoff now_utc s op
    let rest := runTrace tzoff now_utc s2 ops
    (rest.1, assignedIds tzoff now_utc s op ++ rest.2)

/-- The id invariant of the SQLite AUTOINCREMENT table: every row id is
below the counter, and row ids are pairwise distinct. -/
def IdInv (s : MState) : Prop :=
  (∀ r ∈ s.rows, r.id < s.nextId) ∧ s.rows.Pairwise (fun a b => a.id ≠ b.id)

theorem step_idInv (tzoff now_utc : Int) (s : MState) (op : Op) (h : IdInv s) :
    IdInv (step tzoff now_utc s op) := by
  cases op with
  | addOp t wl =>
    obtain ⟨hbound, hpair⟩ := h
    constructor
    · intro r hr
      simp only [step] at hr
      rw [add_reminder_rows] at hr
      rcases List.mem_append.1 hr with hr2 | hr2
      · calc r.id < s.nextId := hbound r hr2
          _ < (step tzoff now_utc s (Op.addOp t wl)).nextId := by
            simp [step, add_reminder, schedule_job, insertRow]
      · rw [List.mem_singleton] at hr2
        subst hr2
        simp [step, add_reminder, schedule_job, insertRow]
    · have : (step tzoff now_utc s (Op.addOp t wl)).rows
          = s.rows ++ [⟨s.nextId, t, localToUTC tzoff wl, now_utc⟩] :=
        add_reminder_rows tzoff now_utc s t wl
      rw [this, List.pairwise_append]
      refine ⟨hpair, List.pairwise_singleton _ _, ?_⟩
      intro a ha b hb
      rw [List.mem_singleton] at hb
      subst hb
      exact Nat.ne_of_lt (hbound a ha)
  | delOp rid =>
    obtain ⟨hbound, hpair⟩ := h
    constructor
    · intro r hr
      exact hbound r (List.mem_of_mem_filter hr)
    · exact List.Pairwise.sublist (List.filter_sublist s.rows) hpair

theorem step_nextId_mono (tzoff now_utc : Int) (s : MState) (op : Op) :
    s.nextId ≤ (step tzoff now_utc s op).nextId := by
  cases op with
  | addOp t wl => simp [step, add_reminder, schedule_job, insertRow]
  | delOp rid => simp [step, delete_reminder]

theorem runTrace_ids_bounds (tzoff now_utc : Int) (ops : List Op) (s : MState) :
    (∀ i ∈ (runTrace tzoff now_utc s ops).2,
        s.nextId ≤ i ∧ i < (runTrace tzoff now_utc s ops).1.nextId)
    ∧ s.nextId ≤ (runTrace tzoff now_utc s ops).1.nextId
    ∧ (runTrace tzoff now_utc s ops).2.Pairwise (· < ·) := by
  induction ops generalizing s with
  | nil => exact ⟨by simp [runTrace], Nat.le_refl _, by simp [runTrace]⟩
  | cons op rest ih =>
    obtain ⟨ihb, ihm, ihp⟩ := ih (step tzoff now_utc s op)
    have hstep := step_nextId_mono tzoff now_utc s op
    cases op with
    | addOp t wl =>
      have hid : (add_reminder tzoff now_utc s t wl).2.id = s.nextId := rfl
      have hnext : (step tzoff now_utc s (Op.addOp t wl)).nextId = s.nextId + 1 := by
        simp [step, add_reminder, schedule_job, insertRow]
      refine ⟨?_, ?_, ?_⟩
      · intro i hi
        simp only [runTrace, assignedIds, List.mem_append, List.mem_singleton, hid] at hi
        rcases hi with rfl | hi
        · exact ⟨Nat.le_refl _, by
            have := ihm
            rw [hnext] at this
            exact Nat.lt_of_lt_of_le (Nat.lt_succ_self _) (by simpa [runTrace] using this)⟩
        · have := ihb i hi
          rw [hnext] at this
          exact ⟨Nat.le_of_succ_le this.1, by simpa [runTrace] using this.2⟩
      · have := ihm
        rw [hnext] at this
        exact Nat.le_trans (Nat.le_succ _) (by simpa [runTrace] using this)
      · simp only [runTrace, assignedIds, hid, List.singleton_append]
        rw [List.pairwise_cons]
        refine ⟨?_, ihp⟩
        intro i hi
        have := (ihb i hi).1
        rw [hnext] at this
        exact Nat.lt_of_succ_le this
    | delOp rid =>
      have hnext : (step tzoff now_utc s (Op.delOp rid)).nextId = s.nextId := by
        simp [step, delete_reminder]
      refine ⟨?_, ?_, ?_⟩
      · intro i hi
        simp only [runTrace, assignedIds, List.nil_append] at hi
        have := ihb i hi
        rw [hnext] at this
        exact ⟨this.1, by simpa [runTrace] using this.2⟩
      · have := ihm
        rw [hnext] at this
        simpa [runTrace] using this
      · simpa [runTrace, assignedIds] using ihp

theorem runTrace_idInv (tzoff now_utc : Int) (ops : List Op) (s : MState) (h : IdInv s) :
    IdInv (runTrace tzoff now_utc s ops).1 := by
  induction ops generalizing s with
  | nil => simpa [runTrace] using h
  | cons op rest ih =>
    have := ih (step tzoff now_utc s op) (step_idInv tzoff now_utc s op h)
    simpa [runTrace] using this

/-- C9: ids are assigned by the store at creation (`add` hands out the
current AUTOINCREMENT counter value), row ids stay pairwise distinct
across any sequence of adds and deletes, the assigned ids are strictly
increasing across successive creations, and an id a row ever had before
some point — even one since deleted — is never assigned again later. -/
theorem reminder_ids_monotone_unique (tzoff now_utc : Int) (s : MState)
    (ops1 ops2 : List Op) (h : IdInv s) :
    (∀ t wl, (add_reminder tzoff now_utc s t wl).2.id = s.nextId)
    ∧ IdInv (runTrace tzoff now_utc s (ops1 ++ ops2)).1
    ∧ (runTrace tzoff now_utc s (ops1 ++ ops2)).2.Pairwise (· < ·)
    ∧ (∀ r ∈ (runTrace tzoff now_utc s ops1).1.rows,
        ∀ i ∈ (runTrace tzoff now_utc (runTrace tzoff now_utc s ops1).1 ops2).2,
          r.id < i) := by
  refine ⟨fun t wl => rfl, runTrace_idInv tzoff now_utc _ s h,
    (runTrace_ids_bounds tzoff now_utc _ s).2.2, ?_⟩
  intro r hr i hi
  have hinv1 : IdInv (runTrace tzoff now_utc s ops1).1 := runTrace_idInv tzoff now_utc ops1 s h
  have hbound := (runTrace_ids_bounds tzoff now_utc ops2 (runTrace tzoff now_utc s ops1).1).1 i hi
  exact Nat.lt_of_lt_of_le (hinv1.1 r hr) hbound.1

/-- C9 witness: from a fresh manager, add, delete the row, add again:
the two assigned ids are 1 then 2 (strictly increasing, id 1 not
reused). -/
theorem reminder_ids_monotone_unique_witness :
    (runTrace 0 0 freshManager
        [Op.addOp "a" ⟨5, none⟩, Op.delOp 1, Op.addOp "b" ⟨6, none⟩]).2 = [1, 2]
    ∧ (runTrace 0 0 freshManager
        [Op.addOp "a" ⟨5, none⟩, Op.delOp 1, Op.addOp "b" ⟨6, none⟩]).2.Pairwise (· < ·) := by
  have h := reminder_ids_monotone_unique 0 0 freshManager
    [Op.addOp "a" ⟨5, none⟩, Op.delOp 1, Op.addOp "b" ⟨6, none⟩] []
    ⟨(by intro r hr; cases hr), List.Pairwise.nil⟩
  refine ⟨by decide, ?_⟩
  have := h.2.2.1
  simpa using this
